import Mathlib

/-!
Shallow embedding of the job-search caching / deduplication core of the
Getajob backend (`services/scraper.py` and the `/api/jobs/search` handler in
`routers/jobs.py`), together with theorems settling the frozen claims about
its specification.

Conventions of the embedding:
* Python strings are Lean `String`s; `str.lower()` / `str.strip()` are
  embedded as `pyLower` / `pyStrip` (character-list level, ASCII case map).
* A JSON job record is the structure `RawJob`; fields that may be absent in
  the provider's JSON are `Option`-valued, and Python truthiness on strings
  (`None` and `""` are falsy) is spelled out at each use site.
* The Redis backend is the structure `Redis`: a keyed store of
  (value, stored-at, ttl) entries plus flags describing which operations
  fail (raise) in the current backend state.  JSON round-tripping through
  `json.dumps`/`json.loads` is modelled as the identity, with
  deserialization failures folded into the backend's `getFails` flag.
* Functions whose Python counterpart may let an exception escape to the
  caller return `Except PyErr _`; a `.error` value is an uncaught exception.
* Wall-clock time is an explicit `Nat` parameter (seconds).
-/

/-- Python `str.lower()` (ASCII case map, as exercised by this code base). -/
def pyLower (s : String) : String := ⟨s.data.map Char.toLower⟩

/-- Python `str.strip()`: drop whitespace from both ends. -/
def pyStrip (s : String) : String :=
  ⟨((s.data.dropWhile Char.isWhitespace).reverse.dropWhile Char.isWhitespace).reverse⟩

/-- Python `a or b` on strings: first operand unless it is falsy (empty). -/
def pyOr (a b : String) : String := if a = "" then b else a

/-- Python `x if x is not None else ''` composed with `or ''`: the router's
`job.get(k, '') or ''` idiom. -/
def getStr (o : Option String) : String := (o.getD "")

/-- A raw job record as returned by the upstream provider (the fields this
code base reads). `Option` marks fields that may be missing from the JSON. -/
structure RawJob where
  job_id : Option String
  job_title : Option String
  employer_name : Option String
  job_city : Option String
  job_state : Option String
  job_country : Option String
  job_min_salary : Option Nat
  job_max_salary : Option Nat
  job_description : Option String
  job_apply_link : Option String
  job_google_link : Option String
  job_employment_type : Option String
  job_posted_at_datetime_utc : Option String
deriving DecidableEq, Repr

/-- The dedup key test `jid = job.get('job_id'); if jid and ...`:
the provider identifier, `none` when absent or falsy (empty string). -/
def validId (j : RawJob) : Option String :=
  match j.job_id with
  | some s => if s = "" then none else some s
  | none => none

/-- Exception values observable from the Python code (the precise class is
irrelevant to the claims; only raised-vs-not matters). -/
inductive PyErr where
  | redisErr
  | upstreamErr
deriving DecidableEq, Repr

/-- One page response from the upstream provider: `.error` models a raised
network error or a non-2xx status (`response.raise_for_status`), `.ok l`
models a 200 response whose `data` array is `l` (a missing `data` key is
modelled as `.ok []`, which the code treats identically). -/
abbrev PageResult := Except Unit (List RawJob)

/-! ## Pagination/dedup engine (`fetch_jobs`, scraper.py lines 95-142) -/

/-- The inner `for job in data['data']` loop of `fetch_jobs`: walk one page,
appending each record whose provider id is present, truthy and unseen, and
recording its id as seen. Returns the updated `(seen_ids, all_jobs)`. -/
def processPage (seen : List String) (acc : List RawJob) :
    List RawJob → List String × List RawJob
  | [] => (seen, acc)
  | j :: rest =>
    match validId j with
    | some jid =>
      if jid ∈ seen then processPage seen acc rest
      else processPage (jid :: seen) (acc ++ [j]) rest
    | none => processPage seen acc rest

/-- Page-by-page accumulation: fold `processPage` over a list of pages. -/
def accumPages (st : List String × List RawJob) :
    List (List RawJob) → List String × List RawJob
  | [] => st
  | p :: ps => accumPages (processPage st.1 st.2 p) ps

/-- The deduplicated accumulation of a sequence of upstream pages, starting
from an empty seen-set: what `fetch_jobs` holds in `all_jobs` after
processing those pages (before any truncation). -/
def dedupAccum (pages : List (List RawJob)) : List RawJob :=
  (accumPages ([], []) pages).2

/-- First-occurrence filter on a flat record list: keep each record whose
valid provider id is new (relative to `seen` and to the ids already kept). -/
def dedupFrom (seen : List String) : List RawJob → List RawJob
  | [] => []
  | j :: rest =>
    match validId j with
    | some jid =>
      if jid ∈ seen then dedupFrom seen rest
      else j :: dedupFrom (jid :: seen) rest
    | none => dedupFrom seen rest

/-- The seen-id set after walking a flat record list. -/
def seenAfter (seen : List String) : List RawJob → List String
  | [] => seen
  | j :: rest =>
    match validId j with
    | some jid =>
      if jid ∈ seen then seenAfter seen rest
      else seenAfter (jid :: seen) rest
    | none => seenAfter seen rest

/-- The `while len(all_jobs) < max_jobs and page <= max_pages` loop of
`fetch_jobs`. `fuel` is the number of page numbers still allowed
(`max_pages - page + 1`); `upstream p` is the provider's response to the
request for page `p`. An `.error` page, or an empty page, breaks the loop
returning the accumulation so far; reaching `max_jobs` trims and breaks. -/
def fetchLoop (maxJobs : Nat) (upstream : Nat → PageResult) :
    Nat → Nat → List String → List RawJob → List RawJob
  | 0, _, _, acc => acc
  | fuel + 1, page, seen, acc =>
    if acc.length < maxJobs then
      match upstream page with
      | .error _ => acc
      | .ok [] => acc
      | .ok (j :: js) =>
        let st := processPage seen acc (j :: js)
        if maxJobs ≤ st.2.length then st.2.take maxJobs
        else fetchLoop maxJobs upstream fuel (page + 1) st.1 st.2
    else acc

/-- Source constant `max_pages = 3  # Safety limit to prevent excessive API calls` -/
def max_pages : Nat := 3

/-! ## Cache store (`_get_redis`, `_get_cached_jobs`, `_set_cache`) -/

/-- Source constant `CACHE_TTL_SECONDS = 2 * 60 * 60  # 2 hours in seconds` -/
def CACHE_TTL_SECONDS : Nat := 2 * 60 * 60

/-- Source constant `CACHE_PREFIX = "job_search:"` -/
def CACHE_PREFIX : String := "job_search:"

/-- A stored cache entry: the listing value (JSON round-tripping through
`json.dumps`/`json.loads` is modelled as the identity), the wall-clock
second at which `setex` stored it, and the TTL it was stored with. -/
structure CacheEntry where
  value : List RawJob
  storedAt : Nat
  ttl : Nat
deriving DecidableEq, Repr

/-- State of the Redis backend as observed by this module: the keyed entry
store plus which operations currently fail.  `reachable = false` models a
backend whose `ping()` raises `redis.ConnectionError` (unreachable);
`getFails k` / `setFails k` model `r.get` / `r.setex` raising (network
error mid-operation, or — for `get` — a `json.loads` failure on the
returned payload). -/
structure Redis where
  reachable : Bool
  getFails : String → Bool
  setFails : String → Bool
  entries : String → Option CacheEntry

/-- Function `_get_redis()`: connect and ping, catching `redis.ConnectionError`;
`none` means the connection failed and the caller sees no client. -/
def _get_redis (r : Redis) : Option Unit :=
  if r.reachable then some () else none

/-- Modelled from the spec (the expiry check lives inside the external
Redis server, not in this repository): the store's native TTL lookup —
`get` yields the value only while `now - stored_at < ttl`, and the key is
treated as absent from `stored_at + ttl` on. -/
def redisNativeGet (r : Redis) (now : Nat) (key : String) :
    Option (List RawJob) :=
  match r.entries key with
  | some e => if now < e.storedAt + e.ttl then some e.value else none
  | none => none

/-- Operation `r.get(cache_key)` followed by `json.loads`: raises iff the backend's
get currently fails, otherwise returns the (TTL-filtered) stored value. -/
def redisGetOp (r : Redis) (now : Nat) (key : String) :
    Except PyErr (Option (List RawJob)) :=
  if r.getFails key then .error .redisErr
  else .ok (redisNativeGet r now key)

/-- Operation `r.setex(cache_key, ttl, payload)`: raises iff the backend's set
currently fails, otherwise overwrites the entry with a fresh timestamp. -/
def redisSetexOp (r : Redis) (now : Nat) (key : String) (ttl : Nat)
    (v : List RawJob) : Except PyErr Redis :=
  if r.setFails key then .error .redisErr
  else .ok { r with
    entries := fun k => if k = key then some ⟨v, now, ttl⟩ else r.entries k }

/-- Function `_get_cached_jobs(cache_key)`: returns `None` when there is no client;
otherwise runs the get+parse inside `try/except Exception`, falling back to
`None`.  The `Except` layer records whether an exception escapes to the
caller (it never does). -/
def _get_cached_jobs (r : Redis) (now : Nat) (key : String) :
    Except PyErr (Option (List RawJob)) :=
  match _get_redis r with
  | none => .ok none
  | some _ =>
    match redisGetOp r now key with
    | .ok v => .ok v
    | .error _ => .ok none

/-- Function `_set_cache(cache_key, jobs)`: no-op when there is no client; otherwise
runs `setex` inside `try/except Exception`, dropping the write on failure.
Returns the (possibly unchanged) backend state. -/
def _set_cache (r : Redis) (now : Nat) (key : String) (jobs : List RawJob) :
    Except PyErr Redis :=
  match _get_redis r with
  | none => .ok r
  | some _ =>
    match redisSetexOp r now key CACHE_TTL_SECONDS jobs with
    | .ok r2 => .ok r2
    | .error _ => .ok r

/-! ## Query normalizer (`_get_cache_key`) -/

/-- Function `_get_cache_key(query, location, date_posted, sort_by)`:
`f"{CACHE_PREFIX}{query.lower().strip()}|{location.lower().strip()}|{date_posted}|{sort_by}"` -/
def _get_cache_key (query location : String)
    (date_posted : String := "week") (sort_by : String := "date") : String :=
  CACHE_PREFIX ++ pyStrip (pyLower query) ++ "|" ++
    pyStrip (pyLower location) ++ "|" ++ date_posted ++ "|" ++ sort_by

/-! ## The façade's fetch (`fetch_jobs`, scraper.py lines 67-142) -/

/-- Function `fetch_jobs(query, location, max_jobs, date_posted, sort_by, refresh)`:
check the cache unless `refresh`, on a hit return `cached[:max_jobs]`;
otherwise run the pagination loop, cache a non-empty result, and return it.
The returned `Redis` is the backend state after the call. -/
def fetch_jobs (r : Redis) (now : Nat) (upstream : Nat → PageResult)
    (query location : String) (max_jobs : Nat) (date_posted sort_by : String)
    (refresh : Bool) : Except PyErr (List RawJob × Redis) :=
  let cache_key := _get_cache_key query location date_posted sort_by
  match (if refresh then .ok none else _get_cached_jobs r now cache_key :
      Except PyErr (Option (List RawJob))) with
  | .error e => .error e
  | .ok (some cached_jobs) => .ok (cached_jobs.take max_jobs, r)
  | .ok none =>
    let all_jobs := fetchLoop max_jobs upstream max_pages 1 [] []
    match all_jobs with
    | [] => .ok ([], r)
    | _ :: _ =>
      match _set_cache r now cache_key all_jobs with
      | .error e => .error e
      | .ok r2 => .ok (all_jobs, r2)

/-! ## The search endpoint (`search_jobs`, routers/jobs.py lines 15-116) -/

/-- Python `f"{n:,}"` on a non-negative integer: decimal digits with a comma
every three digits from the right. `commaRev` works on the reversed digit
list. -/
def commaRev : List Char → List Char
  | a :: b :: c :: d :: rest => a :: b :: c :: ',' :: commaRev (d :: rest)
  | l => l

/-- Decimal rendering with thousands separators (`f"{n:,}"`). -/
def pyCommaFmt (n : Nat) : String :=
  ⟨(commaRev (Nat.toDigits 10 n).reverse).reverse⟩

/-- Python numeric truthiness for an optional salary bound:
`job.get('job_min_salary')` is truthy iff present and non-zero. -/
def truthyNat : Option Nat → Bool
  | some n => n ≠ 0
  | none => false

/-- The salary-formatting chain of the handler (`if salary_min and
salary_max: ... elif ... else: salary = None`). -/
def formatSalary (mn mx : Option Nat) : Option String :=
  if truthyNat mn ∧ truthyNat mx then
    some ("$" ++ pyCommaFmt (mn.getD 0) ++ " - $" ++ pyCommaFmt (mx.getD 0))
  else if truthyNat mn then some ("$" ++ pyCommaFmt (mn.getD 0))
  else if truthyNat mx then some ("$" ++ pyCommaFmt (mx.getD 0))
  else none

/-- Handler fragment `location_parts = [p for p in [city, state, country] if p];
job_location = ', '.flatten(location_parts) if location_parts else ''` -/
def joinLocation (city state country : String) : String :=
  String.intercalate ", " (([city, state, country]).filter (· ≠ ""))

/-- The simplified job dict the handler sends to the frontend. -/
structure TransformedJob where
  title : String
  company : String
  location : String
  salary : Option String
  description : String
  url : String
  job_type : String
  posted_date : String
deriving DecidableEq, Repr

/-- The per-record transformation of the handler's loop body (salary
formatting, location join, description truncation, link fallback). -/
def transformJob (j : RawJob) : TransformedJob :=
  { title := getStr j.job_title
    company := getStr j.employer_name
    location := joinLocation (getStr j.job_city) (getStr j.job_state)
      (getStr j.job_country)
    salary := formatSalary j.job_min_salary j.job_max_salary
    description := (getStr j.job_description).take 500
    url := pyOr (getStr j.job_apply_link) (pyOr (getStr j.job_google_link) "")
    job_type := getStr j.job_employment_type
    posted_date := getStr j.job_posted_at_datetime_utc }

/-- The exclusion key the handler computes for a fetched record:
`(title.lower(), company.lower(), job_location.lower())`. -/
abbrev ExclKey := String × String × String

/-- The key of a raw record, as computed in the loop (lines 94-95). -/
def rawJobKey (j : RawJob) : ExclKey :=
  (pyLower (getStr j.job_title), pyLower (getStr j.employer_name),
    pyLower (joinLocation (getStr j.job_city) (getStr j.job_state)
      (getStr j.job_country)))

/-- One row of the `jobs` / `skipped_jobs` tables as read back for the
exclusion sets: title, company, nullable location. -/
structure DBRow where
  title : String
  company : String
  location : Option String
deriving DecidableEq, Repr

/-- Row key `key = (row['title'].lower(), row['company'].lower(),
(row['location'] or '').lower())` -/
def rowKey (row : DBRow) : ExclKey :=
  (pyLower row.title, pyLower row.company, pyLower (row.location.getD ""))

/-- What the persistence collaborator supplies for an authenticated user:
the saved-jobs rows and the skipped-jobs rows. -/
structure UserRows where
  saved : List DBRow
  skipped : List DBRow
deriving DecidableEq, Repr

/-- Set `excluded_jobs`: the union (as a membership structure) of the keys of
the user's saved rows and skipped rows. -/
def excludedKeys (u : UserRows) : List ExclKey :=
  (u.saved ++ u.skipped).map rowKey

/-- The handler's transform-and-filter loop over `raw_jobs`: builds the
output list and counts records dropped because their key is excluded
(exclusion is only tested when a user is authenticated). Returns
`(jobs, filtered_count)`. -/
def transformLoop (hasUser : Bool) (excluded : List ExclKey) :
    List RawJob → List TransformedJob × Nat
  | [] => ([], 0)
  | j :: rest =>
    if hasUser ∧ rawJobKey j ∈ excluded then
      let st := transformLoop hasUser excluded rest
      (st.1, st.2 + 1)
    else
      let st := transformLoop hasUser excluded rest
      (transformJob j :: st.1, st.2)

/-- Summary `message = f"Found {len(jobs)} jobs"` plus, when any record was
filtered, `f" ({filtered_count} already saved/skipped)"`. -/
def mkMessage (found filtered : Nat) : String :=
  "Found " ++ toString found ++ " jobs" ++
    (if 0 < filtered then
      " (" ++ toString filtered ++ " already saved/skipped)" else "")

/-- The endpoint's successful response body. -/
structure SearchOut where
  jobs : List TransformedJob
  message : String
deriving DecidableEq, Repr

/-- An HTTP error response (`HTTPException(status_code, detail)`). -/
structure HTTPErr where
  status : Nat
deriving DecidableEq, Repr

/-- Request model `JobSearchRequest` (models/job.py) — the fields the handler uses.
The handler always passes `location=""` to `fetch_jobs`. -/
structure JobSearchRequest where
  query : String
  max_jobs : Nat := 100
  date_posted : String := "week"
  sort_by : String := "date"
  refresh : Bool := false
deriving DecidableEq, Repr

/-- The `/api/jobs/search` handler: fetch (through the cache), return an
empty success `"No jobs found"` when nothing came back, otherwise build the
exclusion sets for an authenticated user, transform-and-filter, and answer
with the jobs and the summary message.  The surrounding
`try/except Exception` turns any escaped exception into a 500 `.error`. -/
def search_jobs (r : Redis) (now : Nat) (upstream : Nat → PageResult)
    (user : Option UserRows) (req : JobSearchRequest) :
    Except HTTPErr SearchOut :=
  match fetch_jobs r now upstream req.query "" req.max_jobs req.date_posted
      req.sort_by req.refresh with
  | .error _ => .error ⟨500⟩
  | .ok (raw_jobs, _) =>
    match raw_jobs with
    | [] => .ok ⟨[], "No jobs found"⟩
    | _ :: _ =>
      let excluded := match user with
        | some u => excludedKeys u
        | none => []
      let st := transformLoop user.isSome excluded raw_jobs
      .ok ⟨st.1, mkMessage st.1.length st.2⟩

/-! ## Concrete sample values used by witnesses and counterexamples -/

/-- A reachable, never-failing, empty Redis backend. -/
def redisEmpty : Redis := ⟨true, fun _ => false, fun _ => false, fun _ => none⟩

/-- An unreachable Redis backend (connection refused on `ping`). -/
def redisDown : Redis := ⟨false, fun _ => false, fun _ => false, fun _ => none⟩

/-- A minimal raw record with the given id, title, employer and city. -/
def mkJob (id title company city : String) : RawJob :=
  ⟨some id, some title, some company, some city, none, none, none, none,
    none, none, none, none, none⟩

/-- Sample listing "Engineer" at "Acme", "NYC". -/
def jobEngineer : RawJob := mkJob "id1" "Engineer" "Acme" "NYC"

/-- Sample listing "Analyst" at "Foo", "LA". -/
def jobAnalyst : RawJob := mkJob "id2" "Analyst" "Foo" "LA"

/-- A backend holding a fresh entry `[jobEngineer, jobAnalyst]` for the
normalized key of query "python" (stored at second 0). -/
def redisWithCache : Redis :=
  ⟨true, fun _ => false, fun _ => false,
    fun k => if k = "job_search:python||week|date" then
      some ⟨[jobEngineer, jobAnalyst], 0, CACHE_TTL_SECONDS⟩ else none⟩

/-- A user whose saved rows contain (Engineer, Acme, NYC). -/
def savedEngineer : UserRows := ⟨[⟨"Engineer", "Acme", some "NYC"⟩], []⟩

/-- Backend states in which every cache operation fails: unreachable, or
all reads and writes raising. -/
def redisFailing (r : Redis) : Prop :=
  r.reachable = false ∨ ((∀ k, r.getFails k) ∧ (∀ k, r.setFails k))

/-! ## Lemmas about the dedup accumulation -/

theorem processPage_eq (p : List RawJob) :
    ∀ seen acc, processPage seen acc p = (seenAfter seen p, acc ++ dedupFrom seen p) := by
  induction p with
  | nil => intro seen acc; simp [processPage, seenAfter, dedupFrom]
  | cons j rest ih =>
    intro seen acc
    cases h : validId j with
    | none => simp [processPage, seenAfter, dedupFrom, h, ih]
    | some jid =>
      by_cases hm : jid ∈ seen
      · simp [processPage, seenAfter, dedupFrom, h, hm, ih]
      · simp [processPage, seenAfter, dedupFrom, h, hm, ih]

theorem dedupFrom_append (l₁ l₂ : List RawJob) : ∀ seen,
    dedupFrom seen (l₁ ++ l₂) =
      dedupFrom seen l₁ ++ dedupFrom (seenAfter seen l₁) l₂ := by
  induction l₁ with
  | nil => intro seen; simp [dedupFrom, seenAfter]
  | cons j rest ih =>
    intro seen
    cases h : validId j with
    | none => simp [dedupFrom, seenAfter, h, ih]
    | some jid =>
      by_cases hm : jid ∈ seen
      · simp [dedupFrom, seenAfter, h, hm, ih]
      · simp [dedupFrom, seenAfter, h, hm, ih]

theorem seenAfter_append (l₁ l₂ : List RawJob) : ∀ seen,
    seenAfter seen (l₁ ++ l₂) = seenAfter (seenAfter seen l₁) l₂ := by
  induction l₁ with
  | nil => intro seen; simp [seenAfter]
  | cons j rest ih =>
    intro seen
    cases h : validId j with
    | none => simp [seenAfter, h, ih]
    | some jid =>
      by_cases hm : jid ∈ seen
      · simp [seenAfter, h, hm, ih]
      · simp [seenAfter, h, hm, ih]

theorem accumPages_eq (pages : List (List RawJob)) : ∀ seen acc,
    accumPages (seen, acc) pages =
      (seenAfter seen pages.flatten, acc ++ dedupFrom seen pages.flatten) := by
  induction pages with
  | nil => intro seen acc; simp [accumPages, seenAfter, dedupFrom]
  | cons p ps ih =>
    intro seen acc
    simp only [accumPages, processPage_eq, List.flatten_cons, ih,
      seenAfter_append, dedupFrom_append, List.append_assoc]

theorem dedupAccum_eq (pages : List (List RawJob)) :
    dedupAccum pages = dedupFrom [] pages.flatten := by
  simp [dedupAccum, accumPages_eq]

theorem dedupFrom_sublist (l : List RawJob) : ∀ seen,
    (dedupFrom seen l).Sublist l := by
  induction l with
  | nil => intro seen; simp [dedupFrom]
  | cons j rest ih =>
    intro seen
    cases h : validId j with
    | none => simp only [dedupFrom, h]; exact (ih seen).cons j
    | some jid =>
      by_cases hm : jid ∈ seen
      · simp only [dedupFrom, h, if_pos hm]; exact (ih seen).cons j
      · simp only [dedupFrom, h, if_neg hm]; exact (ih _).cons₂ j

theorem mem_dedupFrom (l : List RawJob) : ∀ seen j, j ∈ dedupFrom seen l →
    ∃ jid, validId j = some jid ∧ jid ∉ seen := by
  induction l with
  | nil => intro seen j hj; simp [dedupFrom] at hj
  | cons a rest ih =>
    intro seen j hj
    cases h : validId a with
    | none => exact ih seen j (by simpa [dedupFrom, h] using hj)
    | some aid =>
      by_cases hm : aid ∈ seen
      · exact ih seen j (by simpa [dedupFrom, h, hm] using hj)
      · simp only [dedupFrom, h, if_neg hm] at hj
        rcases List.mem_cons.mp hj with rfl | hj
        · exact ⟨aid, h, hm⟩
        · rcases ih _ j hj with ⟨jid, hv, hs⟩
          exact ⟨jid, hv, fun hc => hs (List.mem_cons_of_mem _ hc)⟩

theorem validId_some {j : RawJob} {jid : String} (h : validId j = some jid) :
    j.job_id = some jid ∧ jid ≠ "" := by
  cases hj : j.job_id with
  | none => simp [validId, hj] at h
  | some s =>
    by_cases hs : s = ""
    · simp [validId, hj, hs] at h
    · simp only [validId, hj, if_neg hs, Option.some.injEq] at h
      subst h; exact ⟨rfl, hs⟩

theorem validId_ne {a j : RawJob} {jid : String} (ha : validId a = none)
    (hj : validId j = some jid) : a.job_id ≠ j.job_id := by
  rcases validId_some hj with ⟨hid, hne⟩
  intro hc
  rw [hid] at hc
  simp [validId, hc, hne] at ha

theorem dedupFrom_find? (l : List RawJob) : ∀ seen j, j ∈ dedupFrom seen l →
    l.find? (fun j2 => j2.job_id == j.job_id) = some j := by
  induction l with
  | nil => intro seen j hj; simp [dedupFrom] at hj
  | cons a rest ih =>
    intro seen j hj
    rcases mem_dedupFrom _ _ _ hj with ⟨jid, hjv, hjs⟩
    cases h : validId a with
    | none =>
      simp only [dedupFrom, h] at hj
      rw [List.find?_cons_of_neg, ih seen j hj]
      simpa using validId_ne h hjv
    | some aid =>
      by_cases hm : aid ∈ seen
      · simp only [dedupFrom, h, if_pos hm] at hj
        rw [List.find?_cons_of_neg, ih seen j hj]
        rcases validId_some h with ⟨haid, _⟩
        rcases validId_some hjv with ⟨hjid, _⟩
        simp only [beq_iff_eq, haid, hjid, Option.some.injEq]
        rintro rfl; exact hjs hm
      · simp only [dedupFrom, h, if_neg hm] at hj
        rcases List.mem_cons.mp hj with rfl | hj
        · rw [List.find?_cons_of_pos]; simp
        · rcases mem_dedupFrom _ _ _ hj with ⟨jid2, hjv2, hjs2⟩
          rw [List.find?_cons_of_neg, ih _ j hj]
          rcases validId_some h with ⟨haid, _⟩
          rcases validId_some hjv2 with ⟨hjid2, _⟩
          simp only [beq_iff_eq, haid, hjid2, Option.some.injEq]
          rintro rfl; exact hjs2 (List.mem_cons_self _ _)

theorem dedupFrom_ids_nodup (l : List RawJob) : ∀ seen,
    ((dedupFrom seen l).filterMap validId).Nodup := by
  induction l with
  | nil => intro seen; simp [dedupFrom]
  | cons a rest ih =>
    intro seen
    cases h : validId a with
    | none => simp only [dedupFrom, h]; exact ih seen
    | some aid =>
      by_cases hm : aid ∈ seen
      · simp only [dedupFrom, h, if_pos hm]; exact ih seen
      · simp only [dedupFrom, h, if_neg hm, List.filterMap_cons_some h]
        refine List.nodup_cons.mpr ⟨?_, ih _⟩
        intro hmem
        rcases List.mem_filterMap.mp hmem with ⟨j, hj, hjv⟩
        rcases mem_dedupFrom _ _ _ hj with ⟨jid, hv', hs'⟩
        rw [hv'] at hjv
        cases hjv
        exact hs' (List.mem_cons_self _ _)

theorem dedupFrom_length (l : List RawJob) : ∀ seen : List String,
    (dedupFrom seen l).length =
      ((l.filterMap validId).toFinset \ seen.toFinset).card := by
  induction l with
  | nil => intro seen; simp [dedupFrom]
  | cons a rest ih =>
    intro seen
    cases h : validId a with
    | none =>
      simp only [dedupFrom, h, List.filterMap_cons_none h]
      exact ih seen
    | some aid =>
      by_cases hm : aid ∈ seen
      · simp only [dedupFrom, h, if_pos hm, List.filterMap_cons_some h,
          List.toFinset_cons]
        rw [Finset.insert_sdiff_of_mem _ (List.mem_toFinset.mpr hm)]
        exact ih seen
      · simp only [dedupFrom, h, if_neg hm, List.filterMap_cons_some h,
          List.toFinset_cons, List.length_cons]
        rw [Finset.insert_sdiff_of_not_mem _ (by simpa using hm), ih (aid :: seen)]
        rw [List.toFinset_cons, Finset.sdiff_insert]
        set D := (rest.filterMap validId).toFinset \ seen.toFinset with hD
        by_cases hd : aid ∈ D
        · rw [Finset.card_insert_of_mem hd, Finset.card_erase_of_mem hd]
          have hpos : 0 < D.card := Finset.card_pos.mpr ⟨aid, hd⟩
          omega
        · rw [Finset.card_insert_of_not_mem hd, Finset.erase_eq_of_not_mem hd]

theorem take_append_left {α : Type} (l₁ l₂ : List α) (n : Nat)
    (h : n ≤ l₁.length) : (l₁ ++ l₂).take n = l₁.take n :=
  List.take_append_of_le_length h

/-- While every fetched page succeeds and is non-empty, the loop computes
the deduplicated accumulation of the pages, truncated to `maxJobs` exactly
when it grows that large. -/
theorem fetchLoop_pages_ok (maxJobs : Nat) (up : Nat → PageResult) :
    ∀ (ps : List (List RawJob)) (page : Nat) (seen : List String)
      (acc : List RawJob),
      (∀ i (h : i < ps.length), up (page + i) = .ok (ps.get ⟨i, h⟩)) →
      (∀ p ∈ ps, p ≠ []) →
      acc.length < maxJobs →
      fetchLoop maxJobs up ps.length page seen acc =
        (if maxJobs ≤ (acc ++ dedupFrom seen ps.flatten).length
         then (acc ++ dedupFrom seen ps.flatten).take maxJobs
         else acc ++ dedupFrom seen ps.flatten) := by
  intro ps
  induction ps with
  | nil =>
    intro page seen acc _ _ hacc
    simp only [List.length_nil, fetchLoop, List.flatten_nil, dedupFrom,
      List.append_nil]
    rw [if_neg (by omega)]
  | cons p rest ih =>
    intro page seen acc hup hne hacc
    have hp : up page = .ok p := by simpa using hup 0 (by simp)
    have hpne : p ≠ [] := hne p (List.mem_cons_self _ _)
    obtain ⟨j, js, rfl⟩ : ∃ j js, p = j :: js := by
      cases p with
      | nil => exact absurd rfl hpne
      | cons j js => exact ⟨j, js, rfl⟩
    rw [List.length_cons, fetchLoop, if_pos hacc, hp]
    simp only [processPage_eq]
    rw [List.flatten_cons, dedupFrom_append, ← List.append_assoc]
    set acc2 := acc ++ dedupFrom seen (j :: js) with hacc2
    set tail := dedupFrom (seenAfter seen (j :: js)) rest.flatten with htail
    by_cases hbig : maxJobs ≤ acc2.length
    · rw [if_pos hbig, if_pos (by simp only [List.length_append]; omega)]
      rw [take_append_left acc2 tail maxJobs (by omega)]
    · rw [if_neg hbig]
      have hup2 : ∀ i (h : i < rest.length),
          up (page + 1 + i) = .ok (rest.get ⟨i, h⟩) := by
        intro i h
        have := hup (i + 1) (by simpa using Nat.succ_lt_succ h)
        have harith : page + (i + 1) = page + 1 + i := by omega
        rw [harith] at this
        simpa using this
      have := ih (page + 1) (seenAfter seen (j :: js)) acc2 hup2
        (fun q hq => hne q (List.mem_cons_of_mem _ hq)) (by omega)
      rw [this, List.append_assoc]

/-- If the pages before a failing page succeed non-empty and never reach
`maxJobs`, the failing page terminates the loop with exactly the
accumulation of the successful pages. -/
theorem fetchLoop_pages_err (maxJobs : Nat) (up : Nat → PageResult) :
    ∀ (ps : List (List RawJob)) (fuel page : Nat) (seen : List String)
      (acc : List RawJob),
      ps.length < fuel →
      (∀ i (h : i < ps.length), up (page + i) = .ok (ps.get ⟨i, h⟩)) →
      (∀ p ∈ ps, p ≠ []) →
      up (page + ps.length) = .error () →
      (acc ++ dedupFrom seen ps.flatten).length < maxJobs →
      fetchLoop maxJobs up fuel page seen acc =
        acc ++ dedupFrom seen ps.flatten := by
  intro ps
  induction ps with
  | nil =>
    intro fuel page seen acc hfuel _ _ herr hsmall
    obtain ⟨f, rfl⟩ : ∃ f, fuel = f + 1 := by
      cases fuel with
      | zero => omega
      | succ f => exact ⟨f, rfl⟩
    simp only [List.flatten_nil, dedupFrom, List.append_nil] at hsmall ⊢
    rw [fetchLoop, if_pos hsmall]
    rw [show page + [].length = page by simp] at herr
    rw [herr]
  | cons p rest ih =>
    intro fuel page seen acc hfuel hup hne herr hsmall
    obtain ⟨f, rfl⟩ : ∃ f, fuel = f + 1 := by
      cases fuel with
      | zero => omega
      | succ f => exact ⟨f, rfl⟩
    have hp : up page = .ok p := by simpa using hup 0 (by simp)
    have hpne : p ≠ [] := hne p (List.mem_cons_self _ _)
    obtain ⟨j, js, rfl⟩ : ∃ j js, p = j :: js := by
      cases p with
      | nil => exact absurd rfl hpne
      | cons j js => exact ⟨j, js, rfl⟩
    rw [List.flatten_cons, dedupFrom_append, ← List.append_assoc] at hsmall ⊢
    have hacc : acc.length < maxJobs := by
      simp only [List.length_append] at hsmall ⊢; omega
    rw [fetchLoop, if_pos hacc, hp]
    simp only [processPage_eq]
    have hacc2 : (acc ++ dedupFrom seen (j :: js)).length < maxJobs := by
      simp only [List.length_append] at hsmall ⊢; omega
    rw [if_neg (by omega)]
    refine ih f (page + 1) (seenAfter seen (j :: js))
      (acc ++ dedupFrom seen (j :: js)) (by simpa using hfuel) ?_
      (fun q hq => hne q (List.mem_cons_of_mem _ hq)) ?_ hsmall
    · intro i h
      have := hup (i + 1) (by simpa using Nat.succ_lt_succ h)
      have harith : page + (i + 1) = page + 1 + i := by omega
      rw [harith] at this
      simpa using this
    · have harith : page + ((j :: js) :: rest).length = page + 1 + rest.length := by
        simp only [List.length_cons]; omega
      rw [harith] at herr
      exact herr

/-- For an authenticated request, the handler's loop is exactly: keep (in
order, transformed) the records whose exclusion key is not excluded, and
count the records whose key is excluded. -/
theorem transformLoop_eq (excluded : List ExclKey) (raw : List RawJob) :
    transformLoop true excluded raw =
      ((raw.filter (fun j => decide (rawJobKey j ∉ excluded))).map transformJob,
        (raw.filter (fun j => decide (rawJobKey j ∈ excluded))).length) := by
  induction raw with
  | nil => simp [transformLoop]
  | cons j rest ih =>
    by_cases h : rawJobKey j ∈ excluded
    · simp [transformLoop, h, ih, List.filter_cons]
    · simp [transformLoop, h, ih, List.filter_cons]

/-- Function `_get_cached_jobs` never lets an exception escape. -/
theorem get_cached_jobs_isOk (r : Redis) (now : Nat) (key : String) :
    ∃ v, _get_cached_jobs r now key = .ok v := by
  unfold _get_cached_jobs _get_redis redisGetOp
  by_cases hr : r.reachable <;> by_cases hg : r.getFails key <;>
    simp [hr, hg]

/-- Function `_set_cache` never lets an exception escape. -/
theorem set_cache_isOk (r : Redis) (now : Nat) (key : String)
    (jobs : List RawJob) : ∃ r2, _set_cache r now key jobs = .ok r2 := by
  unfold _set_cache _get_redis redisSetexOp
  by_cases hr : r.reachable <;> by_cases hs : r.setFails key <;>
    simp [hr, hs]

/-! ## Claim theorems -/

/-- C4: for every sequence of upstream pages, the dedup accumulation of the
engine (the `for job in data['data']` loop state folded over the pages)
(a) is insensitive to page boundaries — it equals the first-occurrence
filter of the page concatenation; (b) is a sublist of the concatenation,
so first-appearance order is preserved; (c) contains only records with a
present, non-empty provider id (records without one are dropped and do not
count); (d) has pairwise-distinct provider ids; (e) keeps, for each kept
record, exactly the FIRST record of the concatenation bearing its provider
id (first-seen-wins); and (f) its length (before any truncation) equals
the number of distinct provider ids across the fetched pages. -/
theorem dedup_first_seen_accumulation (pages : List (List RawJob)) :
    dedupAccum pages = dedupFrom [] pages.flatten ∧
    (dedupAccum pages).Sublist pages.flatten ∧
    (∀ j ∈ dedupAccum pages, ∃ jid, validId j = some jid) ∧
    ((dedupAccum pages).filterMap validId).Nodup ∧
    (∀ j ∈ dedupAccum pages,
      pages.flatten.find? (fun j2 => j2.job_id == j.job_id) = some j) ∧
    (dedupAccum pages).length =
      (pages.flatten.filterMap validId).toFinset.card := by
  rw [dedupAccum_eq]
  refine ⟨rfl, dedupFrom_sublist _ _, ?_, dedupFrom_ids_nodup _ _, ?_, ?_⟩
  · intro j hj
    rcases mem_dedupFrom _ _ _ hj with ⟨jid, hv, _⟩
    exact ⟨jid, hv⟩
  · intro j hj
    exact dedupFrom_find? _ _ _ hj
  · rw [dedupFrom_length]
    simp

/-- C4 witness: a concrete three-page fetch where page 2 repeats an id from
page 1 — the accumulation keeps 4 records (the distinct ids), in
first-appearance order. -/
theorem dedup_first_seen_accumulation_witness :
    (dedupAccum [[mkJob "a" "t" "c" "l", mkJob "b" "t" "c" "l"],
        [mkJob "b" "x" "y" "z", mkJob "c" "t" "c" "l"],
        [mkJob "d" "t" "c" "l"]]).length = 4 ∧
      (dedupAccum [[mkJob "a" "t" "c" "l", mkJob "b" "t" "c" "l"],
        [mkJob "b" "x" "y" "z", mkJob "c" "t" "c" "l"],
        [mkJob "d" "t" "c" "l"]]).filterMap validId = ["a", "b", "c", "d"] := by
  have h := (dedup_first_seen_accumulation
    [[mkJob "a" "t" "c" "l", mkJob "b" "t" "c" "l"],
     [mkJob "b" "x" "y" "z", mkJob "c" "t" "c" "l"],
     [mkJob "d" "t" "c" "l"]]).2.2.2.2.2
  rw [h]
  exact ⟨by decide, by decide⟩

/-- C6: the cache-key normalizer is a pure function of the query text,
location, recency filter and sort order alone (in particular the target
count and force-refresh flag are not among its inputs, so they cannot
affect the key), and any two queries that agree after lower-casing and
trimming — with equal recency filter and sort order — yield the same key. -/
theorem cache_key_normalized_equality (q₁ l₁ q₂ l₂ d s : String)
    (hq : pyStrip (pyLower q₁) = pyStrip (pyLower q₂))
    (hl : pyStrip (pyLower l₁) = pyStrip (pyLower l₂)) :
    _get_cache_key q₁ l₁ d s = _get_cache_key q₂ l₂ d s := by
  simp [_get_cache_key, hq, hl]

/-- C6 witness: the spec's example instance. -/
theorem cache_key_normalized_equality_witness :
    _get_cache_key " Python Dev " "NYC" "week" "date" =
      _get_cache_key "python dev" "nyc" "week" "date" :=
  cache_key_normalized_equality " Python Dev " "NYC" "python dev" "nyc"
    "week" "date" (by decide) (by decide)

/-- C5: an entry stored (successfully) at time `t` is returned by the cache
read at every instant strictly before `t + 120` minutes and treated as
absent at every instant from `t + 120` minutes on; the TTL passed to the
store is the single module constant `CACHE_TTL_SECONDS` = 2 hours, shared
by every write. -/
theorem cache_ttl_two_hours (r : Redis) (key : String) (jobs : List RawJob)
    (t : Nat) (hreach : r.reachable = true) (hset : r.setFails key = false)
    (hget : r.getFails key = false) :
    CACHE_TTL_SECONDS = 2 * 60 * 60 ∧
    ∃ r2, _set_cache r t key jobs = .ok r2 ∧
      r2.entries key = some ⟨jobs, t, CACHE_TTL_SECONDS⟩ ∧
      (∀ now, now < t + 120 * 60 →
        _get_cached_jobs r2 now key = .ok (some jobs)) ∧
      (∀ now, t + 120 * 60 ≤ now →
        _get_cached_jobs r2 now key = .ok none) := by
  refine ⟨rfl, ⟨{ r with entries := fun k =>
      if k = key then some ⟨jobs, t, CACHE_TTL_SECONDS⟩ else r.entries k },
      ?_, ?_, ?_, ?_⟩⟩
  · simp [_set_cache, _get_redis, hreach, redisSetexOp, hset]
  · simp
  · intro now hnow
    simp only [_get_cached_jobs, _get_redis, hreach, if_pos, redisGetOp, hget,
      Bool.false_eq_true, if_false, redisNativeGet, if_pos rfl]
    rw [if_pos (by simpa [CACHE_TTL_SECONDS] using hnow)]
  · intro now hnow
    simp only [_get_cached_jobs, _get_redis, hreach, if_pos, redisGetOp, hget,
      Bool.false_eq_true, if_false, redisNativeGet, if_pos rfl]
    rw [if_neg (by simp only [CACHE_TTL_SECONDS]; omega)]

/-- C5 witness: store at second 0 in an empty reachable backend; the read
at 119 minutes returns the entry, the read at 121 minutes misses. -/
theorem cache_ttl_two_hours_witness :
    ∃ r2, _set_cache redisEmpty 0 "k" [jobEngineer] = .ok r2 ∧
      _get_cached_jobs r2 (119 * 60) "k" = .ok (some [jobEngineer]) ∧
      _get_cached_jobs r2 (121 * 60) "k" = .ok none := by
  obtain ⟨-, r2, hset, -, hfresh, hstale⟩ :=
    cache_ttl_two_hours redisEmpty "k" [jobEngineer] 0 rfl rfl rfl
  exact ⟨r2, hset, hfresh (119 * 60) (by norm_num), hstale (121 * 60) (by norm_num)⟩

/-- A failing cache read degrades to a miss (`None`), without raising. -/
theorem failing_get (r : Redis) (hfail : redisFailing r) (now : Nat)
    (key : String) : _get_cached_jobs r now key = .ok none := by
  rcases hfail with hr | ⟨hg, _⟩
  · simp [_get_cached_jobs, _get_redis, hr]
  · unfold _get_cached_jobs _get_redis redisGetOp
    by_cases hr : r.reachable <;> simp [hr, hg key]

/-- A failing cache write degrades to a silent no-op, without raising. -/
theorem failing_set (r : Redis) (hfail : redisFailing r) (now : Nat)
    (key : String) (jobs : List RawJob) : _set_cache r now key jobs = .ok r := by
  rcases hfail with hr | ⟨_, hs⟩
  · simp [_set_cache, _get_redis, hr]
  · unfold _set_cache _get_redis redisSetexOp
    by_cases hr : r.reachable <;> simp [hr, hs key]

/-- C3: for every backend state, the cache read and write never raise; and
when the backend is failing (unreachable or always erroring), the read is a
miss, the write is a no-op, and `fetch_jobs` falls through to the upstream
pagination loop, still returning its results. -/
theorem cache_ops_never_raise (r : Redis) (now : Nat) (key : String)
    (jobs : List RawJob) :
    (∃ v, _get_cached_jobs r now key = .ok v) ∧
    (∃ r2, _set_cache r now key jobs = .ok r2) ∧
    (redisFailing r →
      _get_cached_jobs r now key = .ok none ∧
      _set_cache r now key jobs = .ok r ∧
      ∀ up q loc n d s b, fetch_jobs r now up q loc n d s b =
        .ok (fetchLoop n up max_pages 1 [] [], r)) := by
  refine ⟨get_cached_jobs_isOk r now key, set_cache_isOk r now key jobs, ?_⟩
  intro hfail
  refine ⟨failing_get r hfail now key, failing_set r hfail now key jobs, ?_⟩
  intro up q loc n d s b
  simp only [fetch_jobs]
  have hscrut : (if b then (.ok none : Except PyErr (Option (List RawJob)))
      else _get_cached_jobs r now (_get_cache_key q loc d s)) = .ok none := by
    cases b
    · simpa using failing_get r hfail now (_get_cache_key q loc d s)
    · simp
  rw [hscrut]
  cases hl : fetchLoop n up max_pages 1 [] [] with
  | nil => simp
  | cons x xs =>
    simp only []
    rw [failing_set r hfail now (_get_cache_key q loc d s) (x :: xs)]

/-- C3 witness: with an unreachable backend, a read misses, a write
no-ops, and a search still consults the upstream (which here fails,
yielding the empty accumulation) without any exception. -/
theorem cache_ops_never_raise_witness :
    _get_cached_jobs redisDown 0 "k" = .ok none ∧
    _set_cache redisDown 0 "k" [jobEngineer] = .ok redisDown ∧
    fetch_jobs redisDown 0 (fun _ => .error ()) "q" "" 25 "week" "date" false =
      .ok ([], redisDown) := by
  obtain ⟨-, -, h⟩ := cache_ops_never_raise redisDown 0 "k" [jobEngineer]
  obtain ⟨hget, hset, hfetch⟩ := h (Or.inl rfl)
  refine ⟨hget, hset, ?_⟩
  rw [hfetch (fun _ => .error ()) "q" "" 25 "week" "date" false]
  rfl

/-- C10: the backend state returned by `fetch_jobs` differs from the input
state only by a write of the (non-empty) returned accumulation: (a) when
the returned listing sequence is empty, every cache entry is exactly as
before (in particular a forced refresh that yields zero listings leaves the
previously cached entry intact, and an empty result is never stored, so it
will be re-fetched from upstream on every repeated search); (b) the
invariant "every stored cache entry holds a non-empty listing sequence" is
preserved by every fetch. -/
theorem empty_fetch_never_cached (r : Redis) (now : Nat)
    (up : Nat → PageResult) (q loc : String) (n : Nat) (d s : String)
    (b : Bool) (res : List RawJob) (r2 : Redis)
    (hfetch : fetch_jobs r now up q loc n d s b = .ok (res, r2)) :
    (res = [] → ∀ k, r2.entries k = r.entries k) ∧
    ((∀ k e, r.entries k = some e → e.value ≠ []) →
      ∀ k e, r2.entries k = some e → e.value ≠ []) := by
  simp only [fetch_jobs] at hfetch
  cases hscrut : (if b then (.ok none : Except PyErr (Option (List RawJob)))
      else _get_cached_jobs r now (_get_cache_key q loc d s)) with
  | error e => rw [hscrut] at hfetch; exact absurd hfetch (by simp)
  | ok v =>
    rw [hscrut] at hfetch
    cases v with
    | some cached =>
      simp only [Except.ok.injEq, Prod.mk.injEq] at hfetch
      rcases hfetch with ⟨-, rfl⟩
      exact ⟨fun _ _ => rfl, fun hinv => hinv⟩
    | none =>
      simp only [] at hfetch
      cases hl : fetchLoop n up max_pages 1 [] [] with
      | nil =>
        rw [hl] at hfetch
        simp only [Except.ok.injEq, Prod.mk.injEq] at hfetch
        rcases hfetch with ⟨rfl, rfl⟩
        exact ⟨fun _ _ => rfl, fun hinv => hinv⟩
      | cons x xs =>
        rw [hl] at hfetch
        simp only [] at hfetch
        cases hsc : _set_cache r now (_get_cache_key q loc d s) (x :: xs) with
        | error e => rw [hsc] at hfetch; exact absurd hfetch (by simp)
        | ok r3 =>
          rw [hsc] at hfetch
          simp only [Except.ok.injEq, Prod.mk.injEq] at hfetch
          rcases hfetch with ⟨rfl, rfl⟩
          constructor
          · intro hres; exact absurd hres (by simp)
          · intro hinv k e hk
            unfold _set_cache _get_redis at hsc
            by_cases hr : r.reachable
            · rw [if_pos hr] at hsc
              unfold redisSetexOp at hsc
              by_cases hs2 : r.setFails (_get_cache_key q loc d s)
              · simp only [hs2, if_pos] at hsc
                cases hsc
                exact hinv k e hk
              · simp only [hs2, Bool.false_eq_true, if_false,
                  Except.ok.injEq] at hsc
                subst hsc
                simp only [] at hk
                by_cases hkey : k = _get_cache_key q loc d s
                · rw [if_pos hkey] at hk
                  cases hk
                  simp
                · rw [if_neg hkey] at hk
                  exact hinv k e hk
            · rw [if_neg hr] at hsc
              cases hsc
              exact hinv k e hk

/-- C10 witness: a forced refresh whose upstream fails completely returns
no listings and leaves the previously cached (non-empty) entry intact. -/
theorem empty_fetch_never_cached_witness :
    fetch_jobs redisWithCache 0 (fun _ => .error ()) "python" "" 25 "week"
      "date" true = .ok ([], redisWithCache) ∧
    redisWithCache.entries "job_search:python||week|date" =
      some ⟨[jobEngineer, jobAnalyst], 0, CACHE_TTL_SECONDS⟩ := by
  have hfetch : fetch_jobs redisWithCache 0 (fun _ => .error ()) "python" ""
      25 "week" "date" true = .ok ([], redisWithCache) := by rfl
  have h := (empty_fetch_never_cached redisWithCache 0 (fun _ => .error ())
    "python" "" 25 "week" "date" true [] redisWithCache hfetch).1 rfl
  refine ⟨hfetch, ?_⟩
  rw [h "job_search:python||week|date"]
  rfl

/-- C7: on a cache miss (or forced refresh) against an upstream whose first
`max_pages` pages all succeed and are non-empty and jointly supply at least
`N` unique listings, `fetch_jobs` with target `N` returns exactly the first
`N` listings of the deduplicated accumulation, i.e. exactly `N` listings in
first-fetched order. -/
theorem target_count_exact_truncation (r : Redis) (now : Nat)
    (up : Nat → PageResult) (q loc d s : String) (b : Bool) (N : Nat)
    (ps : List (List RawJob))
    (hmiss : b = true ∨
      _get_cached_jobs r now (_get_cache_key q loc d s) = .ok none)
    (hlen : ps.length = max_pages)
    (hne : ∀ p ∈ ps, p ≠ [])
    (hup : ∀ i (h : i < ps.length), up (1 + i) = .ok (ps.get ⟨i, h⟩))
    (hN : N ≤ (dedupAccum ps).length) :
    ∃ r2, fetch_jobs r now up q loc N d s b =
        .ok ((dedupAccum ps).take N, r2) ∧
      ((dedupAccum ps).take N).length = N := by
  have hscrut : (if b then (.ok none : Except PyErr (Option (List RawJob)))
      else _get_cached_jobs r now (_get_cache_key q loc d s)) = .ok none := by
    rcases hmiss with hb | hm
    · rw [hb, if_pos rfl]
    · cases b
      · simpa using hm
      · simp
  have hlentake : ((dedupAccum ps).take N).length = N := by
    rw [List.length_take]
    omega
  rcases Nat.eq_zero_or_pos N with rfl | hpos
  · refine ⟨r, ?_, by simp⟩
    simp only [fetch_jobs, hscrut]
    have hloop : fetchLoop 0 up max_pages 1 [] [] = [] := by
      rw [show max_pages = 2 + 1 from rfl, fetchLoop]
      simp
    rw [hloop]
    simp
  · have hloop := fetchLoop_pages_ok N up ps 1 [] [] hup hne (by simpa using hpos)
    rw [hlen] at hloop
    rw [dedupAccum_eq] at hN ⊢
    simp only [List.nil_append] at hloop
    rw [if_pos hN] at hloop
    simp only [fetch_jobs, hscrut, hloop]
    have htne : (dedupFrom [] ps.flatten).take N ≠ [] := by
      have hlen2 : ((dedupFrom [] ps.flatten).take N).length = N := by
        rw [List.length_take]
        omega
      intro hc
      rw [hc] at hlen2
      simp only [List.length_nil] at hlen2
      omega
    cases hkeep : (dedupFrom [] ps.flatten).take N with
    | nil => exact absurd hkeep htne
    | cons x xs =>
      obtain ⟨r2, hr2⟩ := set_cache_isOk r now (_get_cache_key q loc d s) (x :: xs)
      refine ⟨r2, ?_, ?_⟩
      · simp only [hr2]
      · rw [← hkeep, List.length_take]
        rw [dedupAccum_eq] at hlentake
        omega

/-- C7 witness: target 2 against three non-empty pages supplying 4 unique
listings yields exactly the first 2, in first-fetched order. -/
theorem target_count_exact_truncation_witness :
    ∃ r2, fetch_jobs redisEmpty 0
        (fun p => if p = 1 then .ok [mkJob "a" "t" "c" "l", mkJob "b" "t" "c" "l"]
          else if p = 2 then .ok [mkJob "b" "x" "y" "z", mkJob "c" "t" "c" "l"]
          else .ok [mkJob "d" "t" "c" "l"])
        "python" "" 2 "week" "date" false =
      .ok ([mkJob "a" "t" "c" "l", mkJob "b" "t" "c" "l"], r2) := by
  obtain ⟨r2, hr2, -⟩ := target_count_exact_truncation redisEmpty 0
    (fun p => if p = 1 then .ok [mkJob "a" "t" "c" "l", mkJob "b" "t" "c" "l"]
      else if p = 2 then .ok [mkJob "b" "x" "y" "z", mkJob "c" "t" "c" "l"]
      else .ok [mkJob "d" "t" "c" "l"])
    "python" "" "week" "date" false 2
    [[mkJob "a" "t" "c" "l", mkJob "b" "t" "c" "l"],
     [mkJob "b" "x" "y" "z", mkJob "c" "t" "c" "l"],
     [mkJob "d" "t" "c" "l"]]
    (Or.inr (by rfl)) rfl (by decide)
    (by intro i h
        have h3 : i < 3 := by simpa using h
        interval_cases i <;> rfl)
    (by decide)
  have hval : (dedupAccum [[mkJob "a" "t" "c" "l", mkJob "b" "t" "c" "l"],
      [mkJob "b" "x" "y" "z", mkJob "c" "t" "c" "l"],
      [mkJob "d" "t" "c" "l"]]).take 2 =
      [mkJob "a" "t" "c" "l", mkJob "b" "t" "c" "l"] := by decide
  exact ⟨r2, by rw [hr2, hval]⟩

/-- C8: on a cache miss, if the pages before some page within the page
limit all succeed non-empty without reaching the target, and that page's
request fails, `fetch_jobs` stops paginating and returns exactly the
listings accumulated from the successful pages — no exception escapes. -/
theorem page_error_returns_accumulated (r : Redis) (now : Nat)
    (up : Nat → PageResult) (q loc d s : String) (b : Bool) (N : Nat)
    (ps : List (List RawJob))
    (hmiss : b = true ∨
      _get_cached_jobs r now (_get_cache_key q loc d s) = .ok none)
    (hlen : ps.length < max_pages)
    (hne : ∀ p ∈ ps, p ≠ [])
    (hup : ∀ i (h : i < ps.length), up (1 + i) = .ok (ps.get ⟨i, h⟩))
    (herr : up (1 + ps.length) = .error ())
    (hsmall : (dedupAccum ps).length < N) :
    ∃ r2, fetch_jobs r now up q loc N d s b = .ok (dedupAccum ps, r2) := by
  have hscrut : (if b then (.ok none : Except PyErr (Option (List RawJob)))
      else _get_cached_jobs r now (_get_cache_key q loc d s)) = .ok none := by
    rcases hmiss with hb | hm
    · rw [hb, if_pos rfl]
    · cases b
      · simpa using hm
      · simp
  have hloop := fetchLoop_pages_err N up ps max_pages 1 [] []
    (by simpa using hlen) hup hne herr
    (by rw [List.nil_append, ← dedupAccum_eq]; exact hsmall)
  rw [List.nil_append, ← dedupAccum_eq] at hloop
  simp only [fetch_jobs, hscrut, hloop]
  cases hkeep : dedupAccum ps with
  | nil => exact ⟨r, by simp⟩
  | cons x xs =>
    obtain ⟨r2, hr2⟩ := set_cache_isOk r now (_get_cache_key q loc d s) (x :: xs)
    exact ⟨r2, by simp only [hr2]⟩

/-- C8 witness: page 1 succeeds with 5 listings, page 2 raises — exactly
those 5 listings are returned, as a successful (non-error) result. -/
theorem page_error_returns_accumulated_witness :
    ∃ r2, fetch_jobs redisEmpty 0
        (fun p => if p = 1 then .ok [mkJob "a" "t" "c" "l", mkJob "b" "t" "c" "l",
            mkJob "c" "t" "c" "l", mkJob "d" "t" "c" "l", mkJob "e" "t" "c" "l"]
          else .error ())
        "python" "" 25 "week" "date" false =
      .ok ([mkJob "a" "t" "c" "l", mkJob "b" "t" "c" "l", mkJob "c" "t" "c" "l",
        mkJob "d" "t" "c" "l", mkJob "e" "t" "c" "l"], r2) := by
  obtain ⟨r2, hr2⟩ := page_error_returns_accumulated redisEmpty 0
    (fun p => if p = 1 then .ok [mkJob "a" "t" "c" "l", mkJob "b" "t" "c" "l",
        mkJob "c" "t" "c" "l", mkJob "d" "t" "c" "l", mkJob "e" "t" "c" "l"]
      else .error ())
    "python" "" "week" "date" false 25
    [[mkJob "a" "t" "c" "l", mkJob "b" "t" "c" "l", mkJob "c" "t" "c" "l",
      mkJob "d" "t" "c" "l", mkJob "e" "t" "c" "l"]]
    (Or.inr (by rfl)) (by decide) (by decide)
    (by intro i h
        have h1 : i < 1 := by simpa using h
        interval_cases i
        rfl)
    (by rfl) (by decide)
  have hval : dedupAccum [[mkJob "a" "t" "c" "l", mkJob "b" "t" "c" "l",
      mkJob "c" "t" "c" "l", mkJob "d" "t" "c" "l", mkJob "e" "t" "c" "l"]] =
      [mkJob "a" "t" "c" "l", mkJob "b" "t" "c" "l", mkJob "c" "t" "c" "l",
        mkJob "d" "t" "c" "l", mkJob "e" "t" "c" "l"] := by decide
  exact ⟨r2, by rw [hr2, hval]⟩

/-- C1 counterexample: with an empty cache and an upstream for which every
attempted page request fails (zero listings accumulated), the handler
returns an empty SUCCESS whose message is "No jobs found" — the very
response the claim reserves for a legitimately empty upstream — and not an
error response. -/
theorem search_total_failure_cex :
    search_jobs redisEmpty 0 (fun _ => .error ()) none
      ⟨"python developer", 25, "week", "date", false⟩ =
    .ok ⟨[], "No jobs found"⟩ := by rfl

/-- C1 amended: when every attempted upstream page request fails and zero
listings are accumulated, the façade returns an empty success with message
"No jobs found" — indistinguishable from a legitimately empty upstream
result; no search-failure error is surfaced to the caller. -/
theorem search_total_failure_empty_success (r : Redis) (now : Nat)
    (up : Nat → PageResult) (user : Option UserRows) (req : JobSearchRequest)
    (hmiss : req.refresh = true ∨
      _get_cached_jobs r now
        (_get_cache_key req.query "" req.date_posted req.sort_by) = .ok none)
    (hup : ∀ p, up p = .error ()) :
    search_jobs r now up user req = .ok ⟨[], "No jobs found"⟩ := by
  have hscrut : (if req.refresh then
      (.ok none : Except PyErr (Option (List RawJob)))
      else _get_cached_jobs r now
        (_get_cache_key req.query "" req.date_posted req.sort_by)) = .ok none := by
    rcases hmiss with hb | hm
    · rw [hb, if_pos rfl]
    · cases hb : req.refresh
      · simp [hb, hm]
      · simp [hb]
  have hloop : fetchLoop req.max_jobs up max_pages 1 [] [] = [] := by
    rw [show max_pages = 2 + 1 from rfl, fetchLoop]
    by_cases h : ([] : List RawJob).length < req.max_jobs
    · rw [if_pos h, hup 1]
    · rw [if_neg h]
  simp only [search_jobs, fetch_jobs, hscrut, hloop]

/-- C1 amended witness: a concrete unreachable-cache, failing-upstream
search returns the empty success. -/
theorem search_total_failure_empty_success_witness :
    search_jobs redisDown 5 (fun _ => .error ()) (some savedEngineer)
      ⟨"data analyst", 10, "week", "date", false⟩ =
    .ok ⟨[], "No jobs found"⟩ :=
  search_total_failure_empty_success redisDown 5 (fun _ => .error ())
    (some savedEngineer) ⟨"data analyst", 10, "week", "date", false⟩
    (Or.inr (by rfl)) (fun _ => rfl)

/-- C2 counterexample: a fresh cache entry holds (Engineer, excluded) then
(Analyst, not excluded); the request has `target_count = 1`, so the cached
sequence contains at least 1 listing outside the user's exclusion sets —
yet the handler returns 0 listings, because the cached sequence is
truncated to `target_count` BEFORE the exclusion filter runs. -/
theorem search_cache_hit_truncation_cex :
    search_jobs redisWithCache 0 (fun _ => .error ()) (some savedEngineer)
      ⟨"python", 1, "week", "date", false⟩ =
    .ok ⟨[], "Found 0 jobs (1 already saved/skipped)"⟩ := by rfl

/-- C2 amended: on a fresh cache hit with `force_refresh` false, the cached
sequence is truncated to `target_count` BEFORE the exclusion filter is
applied, and no further truncation happens afterwards: the response is
exactly the filtered transform of `cached[:target_count]`, so the user can
receive fewer than `target_count` listings even when the cached sequence
holds at least `target_count` listings outside the exclusion sets. -/
theorem search_cache_hit_truncate_before_filter (r : Redis) (now : Nat)
    (up : Nat → PageResult) (u : UserRows) (req : JobSearchRequest)
    (cached : List RawJob)
    (hrefresh : req.refresh = false)
    (hhit : _get_cached_jobs r now
      (_get_cache_key req.query "" req.date_posted req.sort_by) =
        .ok (some cached))
    (hne : cached.take req.max_jobs ≠ []) :
    search_jobs r now up (some u) req =
      .ok ⟨((cached.take req.max_jobs).filter
              (fun j => decide (rawJobKey j ∉ excludedKeys u))).map transformJob,
          mkMessage (((cached.take req.max_jobs).filter
              (fun j => decide (rawJobKey j ∉ excludedKeys u))).map
                transformJob).length
            ((cached.take req.max_jobs).filter
              (fun j => decide (rawJobKey j ∈ excludedKeys u))).length⟩ := by
  have hfetch : fetch_jobs r now up req.query "" req.max_jobs req.date_posted
      req.sort_by req.refresh = .ok (cached.take req.max_jobs, r) := by
    simp only [fetch_jobs, hrefresh, Bool.false_eq_true, if_false, hhit]
  obtain ⟨x, xs, hxx⟩ : ∃ x xs, cached.take req.max_jobs = x :: xs := by
    cases hc : cached.take req.max_jobs with
    | nil => exact absurd hc hne
    | cons x xs => exact ⟨x, xs, rfl⟩
  simp only [search_jobs, hfetch, hxx, Option.isSome_some]
  rw [← hxx, transformLoop_eq]

/-- C2 amended witness: with `target_count = 2` the same cached pair yields
exactly the Analyst listing and the message reporting one exclusion. -/
theorem search_cache_hit_truncate_before_filter_witness :
    search_jobs redisWithCache 0 (fun _ => .error ()) (some savedEngineer)
      ⟨"python", 2, "week", "date", false⟩ =
    .ok ⟨[transformJob jobAnalyst], "Found 1 jobs (1 already saved/skipped)"⟩ := by
  have h := search_cache_hit_truncate_before_filter redisWithCache 0
    (fun _ => .error ()) savedEngineer ⟨"python", 2, "week", "date", false⟩
    [jobEngineer, jobAnalyst] rfl (by rfl) (by decide)
  rw [h]
  rfl

/-- C9: for every authenticated search whose fetch yields a non-empty raw
sequence, the response keeps exactly (in original relative order,
transformed) the listings whose case-folded (title, company, location)
triple is NOT in the union of the user's saved and skipped key sets, and
the message is "Found k jobs" extended, when any listing was removed, with
the exact count removed ("(m already saved/skipped)"). -/
theorem exclusion_filter_removes_saved_skipped (r : Redis) (now : Nat)
    (up : Nat → PageResult) (u : UserRows) (req : JobSearchRequest)
    (raw : List RawJob) (r2 : Redis)
    (hfetch : fetch_jobs r now up req.query "" req.max_jobs req.date_posted
      req.sort_by req.refresh = .ok (raw, r2))
    (hne : raw ≠ []) :
    search_jobs r now up (some u) req =
      .ok ⟨(raw.filter
              (fun j => decide (rawJobKey j ∉ excludedKeys u))).map transformJob,
          mkMessage ((raw.filter
              (fun j => decide (rawJobKey j ∉ excludedKeys u))).map
                transformJob).length
            (raw.filter
              (fun j => decide (rawJobKey j ∈ excludedKeys u))).length⟩ := by
  obtain ⟨x, xs, hxx⟩ : ∃ x xs, raw = x :: xs := by
    cases hc : raw with
    | nil => exact absurd hc hne
    | cons x xs => exact ⟨x, xs, rfl⟩
  subst hxx
  simp only [search_jobs, hfetch, Option.isSome_some]
  rw [transformLoop_eq]

/-- C9 witness: the spec's example — Engineer/Acme/NYC is in the saved
set, Analyst/Foo/LA is not; only the Analyst listing survives and the
message reports "1 already saved/skipped". -/
theorem exclusion_filter_removes_saved_skipped_witness :
    search_jobs redisWithCache 0 (fun _ => .error ()) (some savedEngineer)
      ⟨"python", 25, "week", "date", false⟩ =
    .ok ⟨[transformJob jobAnalyst], "Found 1 jobs (1 already saved/skipped)"⟩ := by
  have h := exclusion_filter_removes_saved_skipped redisWithCache 0
    (fun _ => .error ()) savedEngineer ⟨"python", 25, "week", "date", false⟩
    [jobEngineer, jobAnalyst] redisWithCache (by rfl) (by decide)
  rw [h]
  rfl
